import Mathlib

/-!
Formal model of the `uptime` network-availability monitor (`src/main.rs`).

Wall-clock time is modelled in whole seconds as `Nat`; every operation of the
source that reads the clock (`Local::now()` / `UNIX_EPOCH.elapsed()`) takes the
current second `now` as an explicit argument.  `std::time::Duration` values are
modelled by their second count (`as_secs`), the only granularity the source
ever uses.  `f64` arithmetic in `uptime_percentage` is modelled over `ℚ`, with
`none` standing for a non-finite result (`0.0 / 0.0` or `x / 0.0`).
-/

/-- Models Rust's `{:02}` formatting of an unsigned integer: zero-pad to width
two, never truncate. -/
def pad2 (n : Nat) : String :=
  if n < 10 then "0" ++ toString n else toString n

/-- Mirrors `format_duration` (src/main.rs:476-486): split a second count into
hours, minutes, seconds by repeated division and subtraction. -/
def format_duration (dur : Nat) : String :=
  let total := dur
  let hours := total / (60 * 60)
  let total1 := total - hours * (60 * 60)
  let mins := total1 / 60
  let total2 := total1 - mins * 60
  let secs := total2
  pad2 hours ++ ":" ++ pad2 mins ++ ":" ++ pad2 secs

/-- Mirrors `struct Period` (src/main.rs:22-26): a start instant and a length.
The source initialises `len` to `Duration::from_secs(0)`; a zero `len` is its
sentinel for "not yet finalized". -/
structure Period where
  start : Nat
  len : Nat
deriving Repr, DecidableEq

namespace Period

/-- Mirrors `Period::new` (src/main.rs:29-34). -/
def new (now : Nat) : Period :=
  { start := now, len := 0 }

/-- Mirrors `Period::finalize` (src/main.rs:36-38): store `now - start` in
`len`. -/
def finalize (now : Nat) (p : Period) : Period :=
  { p with len := now - p.start }

/-- Mirrors `Period::elapsed` (src/main.rs:44-50): if `len` is zero the period
is treated as open and the live `now - start` is returned, otherwise the stored
`len`. -/
def elapsed (now : Nat) (p : Period) : Nat :=
  if p.len = 0 then now - p.start else p.len

end Period

/-- Mirrors `struct TimeTracker` (src/main.rs:53-59). -/
structure TimeTracker where
  start : Nat
  uptime : Option Period
  uptimes : List Period
  downtime : Option Period
  downtimes : List Period
deriving Repr, DecidableEq

namespace TimeTracker

/-- Mirrors `TimeTracker::new` (src/main.rs:62-73): seeded with one open
uptime period, both in the `uptime` slot and in `uptimes`. -/
def new (now : Nat) : TimeTracker :=
  { start := now
    uptime := some (Period.new now)
    uptimes := [Period.new now]
    downtime := none
    downtimes := [] }

/-- Models `self.xxxtimes.last_mut()` followed by `last.finalize()`
(src/main.rs:76-78, 86-88): finalize the last element, if any. -/
def finalizeLast (now : Nat) : List Period → List Period
  | [] => []
  | [p] => [p.finalize now]
  | p :: q :: rest => p :: finalizeLast now (q :: rest)

/-- Mirrors `TimeTracker::down` (src/main.rs:75-83). -/
def down (now : Nat) (tr : TimeTracker) : TimeTracker :=
  { tr with
    uptimes := finalizeLast now tr.uptimes
    uptime := none
    downtime := some (Period.new now)
    downtimes := tr.downtimes ++ [Period.new now] }

/-- Mirrors `TimeTracker::up` (src/main.rs:85-93). -/
def up (now : Nat) (tr : TimeTracker) : TimeTracker :=
  { tr with
    downtimes := finalizeLast now tr.downtimes
    uptime := some (Period.new now)
    downtime := none
    uptimes := tr.uptimes ++ [Period.new now] }

/-- Mirrors `TimeTracker::is_down` (src/main.rs:95-97). -/
def is_down (tr : TimeTracker) : Bool :=
  tr.downtime.isSome

/-- Mirrors `TimeTracker::is_up` (src/main.rs:99-101). -/
def is_up (tr : TimeTracker) : Bool :=
  tr.uptime.isSome

/-- Mirrors `TimeTracker::downtime_str` (src/main.rs:103-107). -/
def downtime_str (now : Nat) (tr : TimeTracker) : String :=
  match tr.downtime with
  | some inst => format_duration (inst.elapsed now)
  | none => "00:00:00"

/-- Mirrors `TimeTracker::uptime_str` (src/main.rs:109-113). -/
def uptime_str (now : Nat) (tr : TimeTracker) : String :=
  match tr.uptime with
  | some inst => format_duration (inst.elapsed now)
  | none => "00:00:00"

/-- The fold inside `TimeTracker::total_downtime_str` (src/main.rs:116-118). -/
def totalDownSecs (now : Nat) (tr : TimeTracker) : Nat :=
  tr.downtimes.foldl (fun sum p => sum + p.elapsed now) 0

/-- The fold inside `TimeTracker::total_uptime_str` and
`TimeTracker::uptime_percentage` (src/main.rs:124-126, 136-138). -/
def totalUpSecs (now : Nat) (tr : TimeTracker) : Nat :=
  tr.uptimes.foldl (fun sum p => sum + p.elapsed now) 0

/-- Mirrors `TimeTracker::total_downtime_str` (src/main.rs:115-121). -/
def total_downtime_str (now : Nat) (tr : TimeTracker) : String :=
  format_duration (totalDownSecs now tr)

/-- Mirrors `TimeTracker::total_uptime_str` (src/main.rs:123-129). -/
def total_uptime_str (now : Nat) (tr : TimeTracker) : String :=
  format_duration (totalUpSecs now tr)

/-- Mirrors `TimeTracker::uptime_percentage` (src/main.rs:135-142):
`total_up as f64 / total as f64`.  The `f64` quotient is a finite real number
exactly when the denominator is non-zero (numerator and denominator are finite
non-negative counts); a zero denominator yields NaN or +inf, modelled as
`none`. -/
def uptime_percentage (now : Nat) (tr : TimeTracker) : Option ℚ :=
  let total_up : Nat := totalUpSecs now tr
  let total : Nat := now - tr.start
  if total = 0 then none else some ((total_up : ℚ) / (total : ℚ))

/-- Models `iter().max_by(|x, y| x.elapsed().cmp(&y.elapsed()))`
(src/main.rs:145-147, 167-169): left fold keeping the accumulator only when it
is strictly greater, hence returning the last maximal element. -/
def maxByElapsed (now : Nat) (l : List Period) : Option Period :=
  l.foldl
    (fun acc p =>
      match acc with
      | none => some p
      | some q => if p.elapsed now < q.elapsed now then some q else some p)
    none

/-- Models the shared tail `max.and_then(|inst| Some(format_duration(inst.elapsed()))).unwrap_or_else(|| "00:00:00".into())` (src/main.rs:161-163, 183-185). -/
def fmtMax (now : Nat) (m : Option Period) : String :=
  match m with
  | some inst => format_duration (inst.elapsed now)
  | none => "00:00:00"

/-- Mirrors `TimeTracker::longest_uptime_str` (src/main.rs:144-164): early
returns of `uptime_str` when the current open period strictly beats the
history maximum or when the history is empty, otherwise the formatted history
maximum. -/
def longest_uptime_str (now : Nat) (tr : TimeTracker) : String :=
  let m := maxByElapsed now tr.uptimes
  match tr.uptime, m with
  | some cur, some t =>
    if t.elapsed now < cur.elapsed now then uptime_str now tr else fmtMax now m
  | some _, none => uptime_str now tr
  | none, _ => fmtMax now m

/-- Mirrors `TimeTracker::longest_downtime_str` (src/main.rs:166-186).  Note
the source's two early-return branches return `uptime_str` (not
`downtime_str`), faithfully reproduced here. -/
def longest_downtime_str (now : Nat) (tr : TimeTracker) : String :=
  let m := maxByElapsed now tr.downtimes
  match tr.downtime, m with
  | some cur, some t =>
    if t.elapsed now < cur.elapsed now then uptime_str now tr else fmtMax now m
  | some _, none => uptime_str now tr
  | none, _ => fmtMax now m

end TimeTracker

/-- Models the fields of `oping::PingItem` that the program reads
(src/main.rs:196-202): `dropped` is an integer flag, `latency_ms` an `f64`
(modelled as `ℚ`; only carried, never computed with). -/
structure PingItem where
  dropped : Nat
  latency_ms : ℚ
  hostname : String
deriving Repr, DecidableEq

/-- Mirrors `struct PingResponse` (src/main.rs:189-193). -/
structure PingResponse where
  dropped : Bool
  latency_ms : ℚ
  hostname : String
deriving Repr, DecidableEq

namespace PingResponse

/-- Mirrors `PingResponse::new` (src/main.rs:196-202): `dropped == 1`. -/
def new (resp : PingItem) : PingResponse :=
  { dropped := resp.dropped == 1
    latency_ms := resp.latency_ms
    hostname := resp.hostname }

end PingResponse

/-- The drop counter of the consumer loop (src/main.rs:309-319): a fold over
the batch incrementing on each `resp.dropped`. -/
def countDropped (rs : List PingResponse) : Nat :=
  rs.foldl (fun dropped resp => if resp.dropped then dropped + 1 else dropped) 0

/-- The two ledger transitions the classifier can invoke. -/
inductive Transition where
  | markDown
  | markUp
deriving Repr, DecidableEq

/-- The edge-detection conditions of the consumer loop (src/main.rs:321-326):
`if dropped == 3 && tracker.is_up() { tracker.down(); } else if
tracker.is_down() && dropped != 3 { tracker.up(); }`, reified as the
transition invoked, if any. -/
def classifierAction (dropped : Nat) (tr : TimeTracker) : Option Transition :=
  if dropped = 3 ∧ tr.is_up = true then some Transition.markDown
  else if tr.is_down = true ∧ dropped ≠ 3 then some Transition.markUp
  else none

/-- The tracker update performed by the consumer loop on one batch
(src/main.rs:309-326). -/
def classifierStep (now : Nat) (rs : List PingResponse) (tr : TimeTracker) :
    TimeTracker :=
  match classifierAction (countDropped rs) tr with
  | some Transition.markDown => tr.down now
  | some Transition.markUp => tr.up now
  | none => tr

/-- Outcome of one probe round as seen by the spawned ping thread
(src/main.rs:234-248): configuration of timeout or hosts failed
(`res.is_err()`), `ping.send()` failed, or a list of responses. -/
inductive PingRound where
  | configError
  | sendError
  | responses (items : List PingItem)
deriving Repr, DecidableEq

/-- Models one iteration of the spawned ping thread's loop
(src/main.rs:232-260).  Returns the batch sent over the channel (if any) and
the number of seconds slept in that iteration.  Both error paths `continue`
to the top of the loop, before the `thread::sleep(Duration::from_secs(1))`
that ends the success path, so they sleep 0 seconds. -/
def pingLoopBody (r : PingRound) : Option (List PingResponse) × Nat :=
  match r with
  | PingRound.configError => (none, 0)
  | PingRound.sendError => (none, 0)
  | PingRound.responses items => (some (items.map PingResponse.new), 1)

/-- C9: Duration formatting maps 0 seconds to "00:00:00", 3661 seconds to
"01:01:01", and 86399 seconds to "23:59:59", each field zero-padded to two
digits. -/
theorem format_duration_examples :
    format_duration 0 = "00:00:00"
    ∧ format_duration 3661 = "01:01:01"
    ∧ format_duration 86399 = "23:59:59" :=
  ⟨rfl, rfl, rfl⟩

/-- C10: duration formatting does not reduce hours modulo 24: for every
duration of at least 86400 seconds the hours field is the full quotient by
3600 (hence at least 24, which a day-wrapped rendering could never show) and
may exceed two characters, while minutes and seconds stay in [0, 59];
90061 seconds formats as "25:01:01" and 360000 seconds as "100:00:00". -/
theorem format_duration_no_day_wrap (n : Nat) (h : 86400 ≤ n) :
    format_duration n
      = pad2 (n / 3600) ++ ":" ++ pad2 (n / 60 % 60) ++ ":" ++ pad2 (n % 60)
    ∧ 24 ≤ n / 3600
    ∧ n / 60 % 60 ≤ 59
    ∧ n % 60 ≤ 59
    ∧ format_duration 90061 = "25:01:01"
    ∧ format_duration 360000 = "100:00:00" := by
  refine ⟨?_, by omega, by omega, by omega, rfl, rfl⟩
  have e1 : n / (60 * 60) = n / 3600 := by norm_num
  have e2 : (n - n / 3600 * (60 * 60)) / 60 = n / 60 % 60 := by omega
  have e3 : (n - n / 3600 * (60 * 60)) - (n / 60 % 60) * 60 = n % 60 := by omega
  simp only [format_duration, e1, e2, e3]

/-- Witness for C10 at n = 90061. -/
theorem format_duration_no_day_wrap_witness :
    format_duration 90061
      = pad2 (90061 / 3600) ++ ":" ++ pad2 (90061 / 60 % 60) ++ ":"
          ++ pad2 (90061 % 60) :=
  (format_duration_no_day_wrap 90061 (by norm_num)).1

/-- C8: a freshly constructed tracker reports `is_up() == true`,
`is_down() == false`, and zero total downtime, rendered "00:00:00", at every
instant. -/
theorem fresh_tracker_up_no_downtime (t0 now : Nat) :
    (TimeTracker.new t0).is_up = true
    ∧ (TimeTracker.new t0).is_down = false
    ∧ TimeTracker.totalDownSecs now (TimeTracker.new t0) = 0
    ∧ TimeTracker.total_downtime_str now (TimeTracker.new t0) = "00:00:00" :=
  ⟨rfl, rfl, rfl, by
    simp only [TimeTracker.total_downtime_str, TimeTracker.totalDownSecs,
      TimeTracker.new, List.foldl_nil]
    exact rfl⟩

/-- Counterexample to C4: a period finalized in the same second it started
freezes `len = 0`, which `elapsed` treats as "still open": two later
`elapsed()` calls return 5 and then 7, so the post-finalization value is not
frozen. -/
theorem period_elapsed_changes_after_zero_finalize :
    ((Period.new 10).finalize 10).len = 0
    ∧ ((Period.new 10).finalize 10).elapsed 15 = 5
    ∧ ((Period.new 10).finalize 10).elapsed 17 = 7
    ∧ ((Period.new 10).finalize 10).elapsed 15
        ≠ ((Period.new 10).finalize 10).elapsed 17 := by
  refine ⟨rfl, rfl, rfl, by decide⟩

/-- C4 (amended): for every Period finalized, exactly once, at a second
strictly after its start second, all subsequent `elapsed()` calls return the
duration frozen at finalization, regardless of how much later they are
made. -/
theorem elapsed_after_nonzero_finalize (p : Period) (tf : Nat)
    (h : p.start < tf) :
    (p.finalize tf).len = tf - p.start
    ∧ ∀ now : Nat, (p.finalize tf).elapsed now = tf - p.start := by
  refine ⟨rfl, fun now => ?_⟩
  have hne : tf - p.start ≠ 0 := by omega
  simp [Period.finalize, Period.elapsed, hne]

/-- Witness for C4 at a concrete period. -/
theorem elapsed_after_nonzero_finalize_witness :
    ((Period.new 3).finalize 5).elapsed 100 = 5 - (Period.new 3).start :=
  (elapsed_after_nonzero_finalize (Period.new 3) 5 (by decide)).2 100

/-- Counterexample to C7: on a failed probe round the loop body sleeps 0
seconds, not the one-second success-path interval, because `continue` jumps
past the `thread::sleep`. -/
theorem pipeline_failure_skips_sleep :
    (pingLoopBody PingRound.configError).2 = 0
    ∧ (pingLoopBody PingRound.sendError).2 = 0
    ∧ (pingLoopBody PingRound.configError).2 ≠ 1
    ∧ (pingLoopBody PingRound.sendError).2 ≠ 1 := by
  refine ⟨rfl, rfl, by decide, by decide⟩

/-- C7 (amended): on every tick whose probe round fails (configuration error
or failure to send), the pipeline delivers no batch downstream and retries
immediately without sleeping; on success it delivers exactly one complete
batch (one response per returned item) and sleeps one second. -/
theorem ping_loop_body_spec (r : PingRound) :
    ((r = PingRound.configError ∨ r = PingRound.sendError) →
      pingLoopBody r = (none, 0))
    ∧ (∀ items : List PingItem, r = PingRound.responses items →
        pingLoopBody r = (some (items.map PingResponse.new), 1)) := by
  cases r with
  | configError => exact ⟨fun _ => rfl, by intro items h; cases h⟩
  | sendError => exact ⟨fun _ => rfl, by intro items h; cases h⟩
  | responses items =>
    refine ⟨fun h => ?_, ?_⟩
    · rcases h with h | h <;> cases h
    · intro items' h
      cases h
      rfl

/-- Witness for C7 at the two failure outcomes and a concrete success. -/
theorem ping_loop_body_spec_witness :
    pingLoopBody PingRound.configError = (none, 0)
    ∧ pingLoopBody (PingRound.responses [⟨0, 20, "8.8.8.8"⟩])
        = (some [⟨false, 20, "8.8.8.8"⟩], 1) :=
  ⟨(ping_loop_body_spec PingRound.configError).1 (Or.inl rfl),
   (ping_loop_body_spec (PingRound.responses [⟨0, 20, "8.8.8.8"⟩])).2
     [⟨0, 20, "8.8.8.8"⟩] rfl⟩

/-- Unfold one step of `countDropped`'s fold: the accumulator shifts out. -/
theorem countDropped_foldl_shift (l : List PingResponse) :
    ∀ a : Nat,
      l.foldl (fun dropped resp => if resp.dropped then dropped + 1 else dropped) a
        = a + countDropped l := by
  induction l with
  | nil => intro a; simp [countDropped]
  | cons r l ih =>
    intro a
    simp only [countDropped, List.foldl_cons]
    rw [ih, ih]
    by_cases hd : r.dropped = true
    · simp [hd]
      try rfl
      try omega
    · simp [hd]
      try rfl
      try omega

/-- One cons step of the drop counter. -/
theorem countDropped_cons (r : PingResponse) (l : List PingResponse) :
    countDropped (r :: l) = (if r.dropped then 1 else 0) + countDropped l := by
  simp only [countDropped, List.foldl_cons]
  rw [countDropped_foldl_shift]
  by_cases hd : r.dropped = true
  · simp [hd]
    rfl
  · simp [hd]
    rfl

/-- The drop count never exceeds the batch size, with equality exactly when
every outcome in the batch is dropped. -/
theorem countDropped_eq_length_iff (l : List PingResponse) :
    countDropped l ≤ l.length
    ∧ (countDropped l = l.length ↔ ∀ r ∈ l, r.dropped = true) := by
  induction l with
  | nil => simp [countDropped]
  | cons r l ih =>
    obtain ⟨hle, hiff⟩ := ih
    rw [countDropped_cons, List.length_cons]
    by_cases hd : r.dropped = true
    · rw [if_pos hd]
      refine ⟨by omega, ?_, ?_⟩
      · intro he r' hr'
        rcases List.mem_cons.1 hr' with h' | h'
        · rw [h']; exact hd
        · exact (hiff.1 (by omega)) r' h'
      · intro hall
        have h2 : countDropped l = l.length :=
          hiff.2 (fun r' hr' => hall r' (List.mem_cons_of_mem r hr'))
        omega
    · rw [if_neg hd]
      refine ⟨by omega, ?_, ?_⟩
      · intro he
        exact absurd he (by omega)
      · intro hall
        exact absurd (hall r (List.mem_cons_self r l)) hd

/-- Trackers reachable by alternating transitions: constructed once, then
`down` applied only while up and `up` only while down — exactly the
discipline the consumer loop's edge detection enforces. -/
inductive Reached : TimeTracker → Prop where
  | base (t0 : Nat) : Reached (TimeTracker.new t0)
  | stepDown (tr : TimeTracker) (t : Nat) :
      Reached tr → tr.is_up = true → Reached (tr.down t)
  | stepUp (tr : TimeTracker) (t : Nat) :
      Reached tr → tr.is_down = true → Reached (tr.up t)

/-- Shape invariant of reachable trackers: exactly one of the two open
slots is occupied, the open period is the last element of its history list,
and the history lengths differ by exactly the expected amount. -/
def WInv (tr : TimeTracker) : Prop :=
  (∃ p c, tr.uptime = some p ∧ tr.downtime = none ∧ tr.uptimes = c ++ [p]
      ∧ tr.uptimes.length = tr.downtimes.length + 1)
  ∨ (∃ p c, tr.downtime = some p ∧ tr.uptime = none ∧ tr.downtimes = c ++ [p]
      ∧ tr.uptimes.length = tr.downtimes.length)

/-- `finalizeLast` preserves list length. -/
theorem finalizeLast_length (now : Nat) :
    ∀ l : List Period, (TimeTracker.finalizeLast now l).length = l.length
  | [] => rfl
  | [_] => rfl
  | p :: q :: rest => by
    have ih := finalizeLast_length now (q :: rest)
    simp only [TimeTracker.finalizeLast, List.length_cons] at ih ⊢
    omega

/-- `finalizeLast` on a list with explicit last element finalizes exactly
that element. -/
theorem finalizeLast_append (now : Nat) (p : Period) :
    ∀ c : List Period,
      TimeTracker.finalizeLast now (c ++ [p]) = c ++ [p.finalize now]
  | [] => rfl
  | a :: c => by
    cases c with
    | nil => rfl
    | cons b c' =>
      have ih := finalizeLast_append now p (b :: c')
      simp only [List.cons_append, List.append_eq, TimeTracker.finalizeLast]
        at ih ⊢
      rw [ih]

/-- Every reachable tracker satisfies the shape invariant `WInv`. -/
theorem reached_winv (tr : TimeTracker) (h : Reached tr) : WInv tr := by
  induction h with
  | base t0 =>
    exact Or.inl ⟨Period.new t0, [], rfl, rfl, rfl, rfl⟩
  | stepDown tr t _ hup ih =>
    rcases ih with ⟨p, c, hu, hd, hl, hlen⟩ | ⟨p, c, hd, hu, hl, hlen⟩
    · refine Or.inr ⟨Period.new t, tr.downtimes, rfl, rfl, rfl, ?_⟩
      simp only [TimeTracker.down, finalizeLast_length, List.length_append,
        List.length_cons, List.length_nil]
      omega
    · rw [TimeTracker.is_up, hu] at hup
      cases hup
  | stepUp tr t _ hdn ih =>
    rcases ih with ⟨p, c, hu, hd, hl, hlen⟩ | ⟨p, c, hd, hu, hl, hlen⟩
    · rw [TimeTracker.is_down, hd] at hdn
      cases hdn
    · refine Or.inl ⟨Period.new t, tr.uptimes, rfl, rfl, rfl, ?_⟩
      simp only [TimeTracker.up, finalizeLast_length, List.length_append,
        List.length_cons, List.length_nil]
      omega

/-- C2: at any time after construction exactly one of the `uptime` and
`downtime` slots is present; the tracker starts with `uptime` present,
`down` clears `uptime` and sets `downtime`, `up` clears `downtime` and sets
`uptime` (those transitions being the only operations that change the two
slots). -/
theorem ledger_exactly_one_open (tr : TimeTracker) (t0 t : Nat)
    (h : Reached tr) :
    ((tr.uptime.isSome = true ∧ tr.downtime = none)
      ∨ (tr.uptime = none ∧ tr.downtime.isSome = true))
    ∧ (TimeTracker.new t0).uptime.isSome = true
    ∧ (TimeTracker.new t0).downtime = none
    ∧ (tr.down t).uptime = none
    ∧ (tr.down t).downtime.isSome = true
    ∧ (tr.up t).uptime.isSome = true
    ∧ (tr.up t).downtime = none := by
  refine ⟨?_, rfl, rfl, rfl, rfl, rfl, rfl⟩
  rcases reached_winv tr h with ⟨p, c, hu, hd, _, _⟩ | ⟨p, c, hd, hu, _, _⟩
  · exact Or.inl ⟨by rw [hu]; rfl, hd⟩
  · exact Or.inr ⟨hu, by rw [hd]; rfl⟩

/-- Witness for C2 at a tracker that went down once. -/
theorem ledger_exactly_one_open_witness :
    (((TimeTracker.new 0).down 3).uptime.isSome = true
      ∧ ((TimeTracker.new 0).down 3).downtime = none)
    ∨ (((TimeTracker.new 0).down 3).uptime = none
      ∧ ((TimeTracker.new 0).down 3).downtime.isSome = true) :=
  (ledger_exactly_one_open ((TimeTracker.new 0).down 3) 0 5
    (Reached.stepDown (TimeTracker.new 0) 3 (Reached.base 0) rfl)).1

/-- C6: along any strictly alternating sequence of transitions from a fresh
tracker, `len(up_history) = len(down_history) + 1` when the tracker is
currently up, and the lengths are equal when it is currently down. -/
theorem history_lengths_alternating (tr : TimeTracker) (h : Reached tr) :
    (tr.is_up = true → tr.uptimes.length = tr.downtimes.length + 1)
    ∧ (tr.is_down = true → tr.uptimes.length = tr.downtimes.length) := by
  rcases reached_winv tr h with ⟨p, c, hu, hd, hl, hlen⟩ | ⟨p, c, hd, hu, hl, hlen⟩
  · refine ⟨fun _ => hlen, fun hdn => ?_⟩
    rw [TimeTracker.is_down, hd] at hdn
    cases hdn
  · refine ⟨fun hup => ?_, fun _ => hlen⟩
    rw [TimeTracker.is_up, hu] at hup
    cases hup

/-- Witness for C6 at a tracker that went down once. -/
theorem history_lengths_alternating_witness :
    ((TimeTracker.new 2).down 4).uptimes.length
      = ((TimeTracker.new 2).down 4).downtimes.length :=
  (history_lengths_alternating ((TimeTracker.new 2).down 4)
    (Reached.stepDown (TimeTracker.new 2) 4 (Reached.base 2) rfl)).2 rfl

/-- Case analysis of the classifier's edge-detection conditions for a tracker
in which at most one of the two open slots is occupied. -/
theorem classifierAction_spec (d : Nat) (tr : TimeTracker)
    (hx : ¬(tr.is_up = true ∧ tr.is_down = true)) :
    (classifierAction d tr = some Transition.markDown
      ↔ tr.is_up = true ∧ d = 3)
    ∧ (classifierAction d tr = some Transition.markUp
      ↔ tr.is_down = true ∧ d ≠ 3)
    ∧ (tr.is_up = true ∧ d ≠ 3 → classifierAction d tr = none)
    ∧ (tr.is_down = true ∧ d = 3 → classifierAction d tr = none) := by
  by_cases hup : tr.is_up = true
  · have hdn : ¬tr.is_down = true := fun hh => hx ⟨hup, hh⟩
    by_cases hd3 : d = 3
    · simp [classifierAction, hup, hdn, hd3]
    · simp [classifierAction, hup, hdn, hd3]
  · by_cases hdn : tr.is_down = true
    · by_cases hd3 : d = 3
      · simp [classifierAction, hup, hdn, hd3]
      · simp [classifierAction, hup, hdn, hd3]
    · by_cases hd3 : d = 3
      · simp [classifierAction, hup, hdn, hd3]
      · simp [classifierAction, hup, hdn, hd3]

/-- C1: for every batch of size 3 the classifier signals down exactly when
all three outcomes are dropped (up otherwise, even with two of three
dropped); it invokes `down` exactly when the tracker is up and the signal is
down, invokes `up` exactly when the tracker is down and the signal is up,
and leaves the tracker untouched whenever its state already matches the
signal. -/
theorem classifier_signal_and_edges (now : Nat) (rs : List PingResponse)
    (tr : TimeTracker) (hlen : rs.length = 3)
    (hx : ¬(tr.is_up = true ∧ tr.is_down = true)) :
    (countDropped rs = 3 ↔ ∀ r ∈ rs, r.dropped = true)
    ∧ (classifierAction (countDropped rs) tr = some Transition.markDown
        ↔ tr.is_up = true ∧ countDropped rs = 3)
    ∧ (classifierAction (countDropped rs) tr = some Transition.markUp
        ↔ tr.is_down = true ∧ countDropped rs ≠ 3)
    ∧ (tr.is_up = true ∧ countDropped rs ≠ 3 →
        classifierAction (countDropped rs) tr = none
        ∧ classifierStep now rs tr = tr)
    ∧ (tr.is_down = true ∧ countDropped rs = 3 →
        classifierAction (countDropped rs) tr = none
        ∧ classifierStep now rs tr = tr)
    ∧ (tr.is_up = true ∧ countDropped rs = 3 →
        classifierStep now rs tr = tr.down now)
    ∧ (tr.is_down = true ∧ countDropped rs ≠ 3 →
        classifierStep now rs tr = tr.up now) := by
  obtain ⟨h1, h2, h3, h4⟩ := classifierAction_spec (countDropped rs) tr hx
  have hcnt : countDropped rs = 3 ↔ ∀ r ∈ rs, r.dropped = true := by
    have hh := (countDropped_eq_length_iff rs).2
    rw [hlen] at hh
    exact hh
  refine ⟨hcnt, h1, h2, ?_, ?_, ?_, ?_⟩
  · intro hh
    have e := h3 hh
    exact ⟨e, by simp [classifierStep, e]⟩
  · intro hh
    have e := h4 hh
    exact ⟨e, by simp [classifierStep, e]⟩
  · intro hh
    have e : classifierAction (countDropped rs) tr = some Transition.markDown :=
      h1.2 hh
    simp [classifierStep, e]
  · intro hh
    have e : classifierAction (countDropped rs) tr = some Transition.markUp :=
      h2.2 hh
    simp [classifierStep, e]

/-- Witness for C1: an all-dropped batch of three against a fresh (up)
tracker makes the classifier invoke the down transition. -/
theorem classifier_signal_and_edges_witness :
    classifierStep 9
      [⟨true, 10, "8.8.8.8"⟩, ⟨true, 10, "4.2.2.2"⟩, ⟨true, 10, "208.67.222.222"⟩]
      (TimeTracker.new 0)
      = (TimeTracker.new 0).down 9 :=
  (classifier_signal_and_edges 9
    [⟨true, 10, "8.8.8.8"⟩, ⟨true, 10, "4.2.2.2"⟩, ⟨true, 10, "208.67.222.222"⟩]
    (TimeTracker.new 0) rfl (by decide)).2.2.2.2.2.1 ⟨rfl, by decide⟩

/-- Folding the max-by-elapsed step over a list with a `some` accumulator
yields a maximal element. -/
theorem maxByElapsed_cons_spec (now : Nat) :
    ∀ (l : List Period) (q : Period),
      ∃ r, TimeTracker.maxByElapsed now (q :: l) = some r
        ∧ (r = q ∨ r ∈ l)
        ∧ q.elapsed now ≤ r.elapsed now
        ∧ ∀ p ∈ l, p.elapsed now ≤ r.elapsed now := by
  intro l
  induction l with
  | nil => exact fun q => ⟨q, rfl, Or.inl rfl, Nat.le_refl _, by simp⟩
  | cons p l ih =>
    intro q
    by_cases hlt : p.elapsed now < q.elapsed now
    · have e : TimeTracker.maxByElapsed now (q :: p :: l)
          = TimeTracker.maxByElapsed now (q :: l) := by
        simp [TimeTracker.maxByElapsed, hlt]
      obtain ⟨r, hr, hm, hq, hall⟩ := ih q
      refine ⟨r, by rw [e]; exact hr, ?_, hq, ?_⟩
      · rcases hm with h | h
        · exact Or.inl h
        · exact Or.inr (List.mem_cons_of_mem p h)
      · intro x hx
        rcases List.mem_cons.1 hx with h | h
        · rw [h]; exact Nat.le_trans (Nat.le_of_lt hlt) hq
        · exact hall x h
    · have e : TimeTracker.maxByElapsed now (q :: p :: l)
          = TimeTracker.maxByElapsed now (p :: l) := by
        simp [TimeTracker.maxByElapsed, hlt]
      obtain ⟨r, hr, hm, hp, hall⟩ := ih p
      refine ⟨r, by rw [e]; exact hr,
        Or.inr (by rcases hm with h | h
                   · rw [h]; exact List.mem_cons_self p l
                   · exact List.mem_cons_of_mem p h),
        Nat.le_trans (Nat.not_lt.1 hlt) hp, ?_⟩
      intro x hx
      rcases List.mem_cons.1 hx with h | h
      · rw [h]; exact hp
      · exact hall x h

/-- On a non-empty list the source's `max_by` pattern returns an element
whose elapsed time dominates the whole list. -/
theorem maxByElapsed_max (now : Nat) (l : List Period) (hne : l ≠ []) :
    ∃ r, TimeTracker.maxByElapsed now l = some r ∧ r ∈ l
      ∧ ∀ p ∈ l, p.elapsed now ≤ r.elapsed now := by
  cases l with
  | nil => exact absurd rfl hne
  | cons q l =>
    obtain ⟨r, hr, hm, hq, hall⟩ := maxByElapsed_cons_spec now l q
    refine ⟨r, hr, ?_, ?_⟩
    · rcases hm with h | h
      · rw [h]; exact List.mem_cons_self q l
      · exact List.mem_cons_of_mem q h
    · intro p hp
      rcases List.mem_cons.1 hp with h | h
      · rw [h]; exact hq
      · exact hall p h

/-- The common body of `longest_uptime_str` and `longest_downtime_str`,
abstracted over the open slot, the history list and the string of the
early-return branches. -/
def longestShape (now : Nat) (slot : Option Period) (hist : List Period)
    (s : String) : String :=
  match slot, TimeTracker.maxByElapsed now hist with
  | some cur, some t =>
    if t.elapsed now < cur.elapsed now then s
    else TimeTracker.fmtMax now (TimeTracker.maxByElapsed now hist)
  | some _, none => s
  | none, _ => TimeTracker.fmtMax now (TimeTracker.maxByElapsed now hist)

/-- `longest_uptime_str` is an instance of the common shape. -/
theorem longest_uptime_str_eq_shape (now : Nat) (tr : TimeTracker) :
    TimeTracker.longest_uptime_str now tr
      = longestShape now tr.uptime tr.uptimes (TimeTracker.uptime_str now tr) := by
  rw [TimeTracker.longest_uptime_str, longestShape.eq_def]

/-- `longest_downtime_str` is an instance of the common shape (with the same
`uptime_str` early returns as in the source). -/
theorem longest_downtime_str_eq_shape (now : Nat) (tr : TimeTracker) :
    TimeTracker.longest_downtime_str now tr
      = longestShape now tr.downtime tr.downtimes (TimeTracker.uptime_str now tr) := by
  rw [TimeTracker.longest_downtime_str, longestShape.eq_def]

/-- Shared shape of `longest_uptime_str` and `longest_downtime_str`: given
that any period held in the open slot is also a member of the history list,
the result formats the maximum elapsed time over the history. -/
theorem longestShape_spec (now : Nat) (slot : Option Period)
    (hist : List Period) (s : String)
    (hmem : ∀ cur, slot = some cur → cur ∈ hist) :
    ∃ M : Nat,
      longestShape now slot hist s = format_duration M
      ∧ (∀ p ∈ hist, p.elapsed now ≤ M)
      ∧ (∀ cur, slot = some cur → cur.elapsed now ≤ M)
      ∧ ((hist = [] ∧ M = 0) ∨ ∃ p ∈ hist, p.elapsed now = M) := by
  cases slot with
  | some cur =>
    have hcm : cur ∈ hist := hmem cur rfl
    have hne : hist ≠ [] := by
      intro hh
      rw [hh] at hcm
      cases hcm
    obtain ⟨r, hr, hrm, hall⟩ := maxByElapsed_max now hist hne
    have hcle := hall cur hcm
    have hnlt : ¬(r.elapsed now < cur.elapsed now) := Nat.not_lt.2 hcle
    refine ⟨r.elapsed now, ?_, hall, ?_, Or.inr ⟨r, hrm, rfl⟩⟩
    · simp [longestShape, hr, TimeTracker.fmtMax, hnlt]
    · intro cur' hc
      cases Option.some.inj hc
      exact hcle
  | none =>
    cases hist with
    | nil =>
      refine ⟨0, ?_, by simp, ?_, Or.inl ⟨rfl, rfl⟩⟩
      · simp [longestShape, TimeTracker.maxByElapsed, TimeTracker.fmtMax]
        rfl
      · intro cur' hc
        cases hc
    | cons q ltl =>
      obtain ⟨r, hr, hrm, hall⟩ := maxByElapsed_max now (q :: ltl) (by simp)
      refine ⟨r.elapsed now, ?_, hall, ?_, Or.inr ⟨r, hrm, rfl⟩⟩
      · simp [longestShape, hr, TimeTracker.fmtMax]
      · intro cur' hc
        cases hc

/-- C3: for every reachable tracker, `longest_downtime_str` renders the
maximum `elapsed()` over the downtime history (which contains the currently
open down period), so it is at least every individual down-period's elapsed
time and at least the open down period's; symmetrically for
`longest_uptime_str` over the uptime history. -/
theorem longest_strs_are_history_max (tr : TimeTracker) (now : Nat)
    (h : Reached tr) :
    (∃ M : Nat,
      TimeTracker.longest_downtime_str now tr = format_duration M
      ∧ (∀ p ∈ tr.downtimes, p.elapsed now ≤ M)
      ∧ (∀ cur : Period, tr.downtime = some cur → cur.elapsed now ≤ M)
      ∧ ((tr.downtimes = [] ∧ M = 0) ∨ ∃ p ∈ tr.downtimes, p.elapsed now = M))
    ∧ (∃ M : Nat,
      TimeTracker.longest_uptime_str now tr = format_duration M
      ∧ (∀ p ∈ tr.uptimes, p.elapsed now ≤ M)
      ∧ (∀ cur : Period, tr.uptime = some cur → cur.elapsed now ≤ M)
      ∧ ((tr.uptimes = [] ∧ M = 0) ∨ ∃ p ∈ tr.uptimes, p.elapsed now = M)) := by
  have hw := reached_winv tr h
  constructor
  · have hmem : ∀ cur, tr.downtime = some cur → cur ∈ tr.downtimes := by
      intro cur hc
      rcases hw with ⟨p, c, hu, hd, hl, _⟩ | ⟨p, c, hd, hu, hl, _⟩
      · rw [hd] at hc
        cases hc
      · rw [hd] at hc
        cases Option.some.inj hc
        rw [hl]
        simp
    obtain ⟨M, hM, hall, hcur, hex⟩ :=
      longestShape_spec now tr.downtime tr.downtimes
        (TimeTracker.uptime_str now tr) hmem
    exact ⟨M, by rw [longest_downtime_str_eq_shape]; exact hM, hall, hcur, hex⟩
  · have hmem : ∀ cur, tr.uptime = some cur → cur ∈ tr.uptimes := by
      intro cur hc
      rcases hw with ⟨p, c, hu, hd, hl, _⟩ | ⟨p, c, hd, hu, hl, _⟩
      · rw [hu] at hc
        cases Option.some.inj hc
        rw [hl]
        simp
      · rw [hu] at hc
        cases hc
    obtain ⟨M, hM, hall, hcur, hex⟩ :=
      longestShape_spec now tr.uptime tr.uptimes
        (TimeTracker.uptime_str now tr) hmem
    exact ⟨M, by rw [longest_uptime_str_eq_shape]; exact hM, hall, hcur, hex⟩

/-- Witness for C3 at a tracker that went down once, observed later. -/
theorem longest_strs_are_history_max_witness :
    ∃ M : Nat,
      TimeTracker.longest_downtime_str 10 ((TimeTracker.new 0).down 3)
        = format_duration M
      ∧ ∀ p ∈ ((TimeTracker.new 0).down 3).downtimes, p.elapsed 10 ≤ M := by
  obtain ⟨M, hM, hall, _, _⟩ :=
    (longest_strs_are_history_max ((TimeTracker.new 0).down 3) 10
      (Reached.stepDown (TimeTracker.new 0) 3 (Reached.base 0) rfl)).1
  exact ⟨M, hM, hall⟩

/-- A period with positive stored length reports that length at any time. -/
theorem elapsed_of_pos (now : Nat) (p : Period) (h : 0 < p.len) :
    p.elapsed now = p.len := by
  rw [Period.elapsed, if_neg (by omega)]

/-- An open period (zero stored length) reports the live elapsed time. -/
theorem elapsed_of_zero (now : Nat) (p : Period) (h : p.len = 0) :
    p.elapsed now = now - p.start := by
  rw [Period.elapsed, if_pos h]

/-- The accumulating fold of the total-time computations equals the
accumulator plus the sum of elapsed times. -/
theorem foldl_add_elapsed (now : Nat) (l : List Period) :
    ∀ a : Nat,
      l.foldl (fun sum p => sum + p.elapsed now) a
        = a + (l.map (fun p => p.elapsed now)).sum := by
  induction l with
  | nil => intro a; simp
  | cons p l ih =>
    intro a
    simp only [List.foldl_cons, List.map_cons, List.sum_cons]
    rw [ih]
    omega

/-- `totalUpSecs` as a list sum. -/
theorem totalUpSecs_eq_sum (now : Nat) (tr : TimeTracker) :
    TimeTracker.totalUpSecs now tr
      = (tr.uptimes.map (fun p => p.elapsed now)).sum := by
  rw [TimeTracker.totalUpSecs, foldl_add_elapsed]
  omega

/-- `totalDownSecs` as a list sum. -/
theorem totalDownSecs_eq_sum (now : Nat) (tr : TimeTracker) :
    TimeTracker.totalDownSecs now tr
      = (tr.downtimes.map (fun p => p.elapsed now)).sum := by
  rw [TimeTracker.totalDownSecs, foldl_add_elapsed]
  omega

/-- Summing elapsed times over fully closed periods (all positive lengths)
does not depend on the observation time. -/
theorem sum_elapsed_of_pos (now : Nat) (l : List Period)
    (h : ∀ q ∈ l, 0 < q.len) :
    (l.map (fun p => p.elapsed now)).sum = (l.map (fun p => p.len)).sum := by
  induction l with
  | nil => rfl
  | cons p l ih =>
    simp only [List.map_cons, List.sum_cons]
    rw [elapsed_of_pos now p (h p (List.mem_cons_self p l)),
      ih (fun q hq => h q (List.mem_cons_of_mem p hq))]

/-- Sum of elapsed times over a history with an explicit last element. -/
theorem sum_elapsed_append_single (now : Nat) (c : List Period) (x : Period) :
    ((c ++ [x]).map (fun q => q.elapsed now)).sum
      = (c.map (fun q => q.elapsed now)).sum + x.elapsed now := by
  simp

/-- Trackers reachable by alternating transitions at strictly increasing
wall-clock seconds, together with the time of the last transition (the
construction time for a fresh tracker). -/
inductive ReachedAt : TimeTracker → Nat → Prop where
  | base (t0 : Nat) : ReachedAt (TimeTracker.new t0) t0
  | stepDown (tr : TimeTracker) (tl t : Nat) :
      ReachedAt tr tl → tr.is_up = true → tl < t → ReachedAt (tr.down t) t
  | stepUp (tr : TimeTracker) (tl t : Nat) :
      ReachedAt tr tl → tr.is_down = true → tl < t → ReachedAt (tr.up t) t

/-- Strong invariant of trackers built at strictly increasing times: the
construction time bounds the last transition time; the open period is the
last element of its side's history, has zero stored length, and started no
later than the last transition; every other period is closed with positive
length; and up- and down-times together partition the time since
construction. -/
def SInv (tr : TimeTracker) (tl : Nat) : Prop :=
  tr.start ≤ tl
  ∧ ((∃ p c, tr.uptime = some p ∧ tr.downtime = none
        ∧ tr.uptimes = c ++ [p] ∧ p.len = 0 ∧ p.start ≤ tl
        ∧ (∀ q ∈ c, 0 < q.len) ∧ (∀ q ∈ tr.downtimes, 0 < q.len))
    ∨ (∃ p c, tr.downtime = some p ∧ tr.uptime = none
        ∧ tr.downtimes = c ++ [p] ∧ p.len = 0 ∧ p.start ≤ tl
        ∧ (∀ q ∈ c, 0 < q.len) ∧ (∀ q ∈ tr.uptimes, 0 < q.len)))
  ∧ ∀ now : Nat, tl ≤ now →
      TimeTracker.totalUpSecs now tr + TimeTracker.totalDownSecs now tr
        = now - tr.start

/-- Every tracker reachable at strictly increasing transition times
satisfies the strong invariant. -/
theorem reachedAt_sinv (tr : TimeTracker) (tl : Nat) (h : ReachedAt tr tl) :
    SInv tr tl := by
  induction h with
  | base t0 =>
    refine ⟨Nat.le_refl t0,
      Or.inl ⟨Period.new t0, [], rfl, rfl, rfl, rfl, Nat.le_refl t0,
        by simp, by simp [TimeTracker.new]⟩, ?_⟩
    intro now hnow
    simp [TimeTracker.totalUpSecs, TimeTracker.totalDownSecs, TimeTracker.new,
      Period.elapsed, Period.new]
  | stepDown tr tl t hr hup hlt ih =>
    obtain ⟨hstart, hshape, hsum⟩ := ih
    rcases hshape with ⟨p, c, hu, hd, hl, hp0, hps, hc, hdn⟩
      | ⟨p, c, hd, hu, hl, hp0, hps, hc, hupl⟩
    · have hfin : (p.finalize t).len = t - p.start := rfl
      have hpos : 0 < (p.finalize t).len := by rw [hfin]; omega
      have eups : (TimeTracker.down t tr).uptimes = c ++ [p.finalize t] := by
        show TimeTracker.finalizeLast t tr.uptimes = _
        rw [hl, finalizeLast_append]
      refine ⟨by show tr.start ≤ t; omega,
        Or.inr ⟨Period.new t, tr.downtimes, rfl, rfl, rfl, rfl,
          Nat.le_refl t, hdn, ?_⟩, ?_⟩
      · rw [eups]
        intro q hq
        rcases List.mem_append.1 hq with hq | hq
        · exact hc q hq
        · rw [List.mem_singleton.1 hq]
          exact hpos
      · intro now hnow
        have hsum_t := hsum t (Nat.le_of_lt hlt)
        have hA : ∀ m : Nat,
            (c.map (fun q => q.elapsed m)).sum = (c.map (fun q => q.len)).sum :=
          fun m => sum_elapsed_of_pos m c hc
        have hB : ∀ m : Nat,
            (tr.downtimes.map (fun q => q.elapsed m)).sum
              = (tr.downtimes.map (fun q => q.len)).sum :=
          fun m => sum_elapsed_of_pos m tr.downtimes hdn
        have hup_t : TimeTracker.totalUpSecs t tr
            = (c.map (fun q => q.len)).sum + (t - p.start) := by
          rw [totalUpSecs_eq_sum, hl, sum_elapsed_append_single, hA,
            elapsed_of_zero t p hp0]
        have hdn_t : TimeTracker.totalDownSecs t tr
            = (tr.downtimes.map (fun q => q.len)).sum := by
          rw [totalDownSecs_eq_sum, hB]
        have hup_now : TimeTracker.totalUpSecs now (TimeTracker.down t tr)
            = (c.map (fun q => q.len)).sum + (t - p.start) := by
          rw [totalUpSecs_eq_sum, eups, sum_elapsed_append_single, hA,
            elapsed_of_pos now (p.finalize t) hpos, hfin]
        have hdn_now : TimeTracker.totalDownSecs now (TimeTracker.down t tr)
            = (tr.downtimes.map (fun q => q.len)).sum + (now - t) := by
          rw [totalDownSecs_eq_sum]
          have e : (TimeTracker.down t tr).downtimes
              = tr.downtimes ++ [Period.new t] := rfl
          rw [e, sum_elapsed_append_single, hB,
            elapsed_of_zero now (Period.new t) rfl]
          rfl
        have estart : (TimeTracker.down t tr).start = tr.start := rfl
        rw [hup_now, hdn_now, estart]
        rw [hup_t, hdn_t] at hsum_t
        omega
    · rw [TimeTracker.is_up, hu] at hup
      cases hup
  | stepUp tr tl t hr hdnp hlt ih =>
    obtain ⟨hstart, hshape, hsum⟩ := ih
    rcases hshape with ⟨p, c, hu, hd, hl, hp0, hps, hc, hdn⟩
      | ⟨p, c, hd, hu, hl, hp0, hps, hc, hupl⟩
    · rw [TimeTracker.is_down, hd] at hdnp
      cases hdnp
    · have hfin : (p.finalize t).len = t - p.start := rfl
      have hpos : 0 < (p.finalize t).len := by rw [hfin]; omega
      have edns : (TimeTracker.up t tr).downtimes = c ++ [p.finalize t] := by
        show TimeTracker.finalizeLast t tr.downtimes = _
        rw [hl, finalizeLast_append]
      refine ⟨by show tr.start ≤ t; omega,
        Or.inl ⟨Period.new t, tr.uptimes, rfl, rfl, rfl, rfl,
          Nat.le_refl t, hupl, ?_⟩, ?_⟩
      · rw [edns]
        intro q hq
        rcases List.mem_append.1 hq with hq | hq
        · exact hc q hq
        · rw [List.mem_singleton.1 hq]
          exact hpos
      · intro now hnow
        have hsum_t := hsum t (Nat.le_of_lt hlt)
        have hA : ∀ m : Nat,
            (c.map (fun q => q.elapsed m)).sum = (c.map (fun q => q.len)).sum :=
          fun m => sum_elapsed_of_pos m c hc
        have hB : ∀ m : Nat,
            (tr.uptimes.map (fun q => q.elapsed m)).sum
              = (tr.uptimes.map (fun q => q.len)).sum :=
          fun m => sum_elapsed_of_pos m tr.uptimes hupl
        have hdn_t : TimeTracker.totalDownSecs t tr
            = (c.map (fun q => q.len)).sum + (t - p.start) := by
          rw [totalDownSecs_eq_sum, hl, sum_elapsed_append_single, hA,
            elapsed_of_zero t p hp0]
        have hup_t : TimeTracker.totalUpSecs t tr
            = (tr.uptimes.map (fun q => q.len)).sum := by
          rw [totalUpSecs_eq_sum, hB]
        have hdn_now : TimeTracker.totalDownSecs now (TimeTracker.up t tr)
            = (c.map (fun q => q.len)).sum + (t - p.start) := by
          rw [totalDownSecs_eq_sum, edns, sum_elapsed_append_single, hA,
            elapsed_of_pos now (p.finalize t) hpos, hfin]
        have hup_now : TimeTracker.totalUpSecs now (TimeTracker.up t tr)
            = (tr.uptimes.map (fun q => q.len)).sum + (now - t) := by
          rw [totalUpSecs_eq_sum]
          have e : (TimeTracker.up t tr).uptimes
              = tr.uptimes ++ [Period.new t] := rfl
          rw [e, sum_elapsed_append_single, hB,
            elapsed_of_zero now (Period.new t) rfl]
          rfl
        have estart : (TimeTracker.up t tr).start = tr.start := rfl
        rw [hup_now, hdn_now, estart]
        rw [hup_t, hdn_t] at hsum_t
        omega

/-- Counterexample to C5: a tracker that goes down and back up within the
second of its construction accumulates a "closed" zero-length up period that
keeps growing (zero length is the open-period sentinel), so five seconds
later `uptime_percentage` returns 2, outside [0, 1]; and at
`now == process_start` the computation divides by zero, yielding a
non-finite value rather than 0. -/
theorem uptime_percentage_out_of_bounds :
    TimeTracker.uptime_percentage 5 (((TimeTracker.new 0).down 0).up 0)
      = some 2
    ∧ ¬((2 : ℚ) ≤ 1)
    ∧ TimeTracker.uptime_percentage 0 (TimeTracker.new 0) = none := by
  refine ⟨?_, by norm_num, ?_⟩
  · have h1 : TimeTracker.totalUpSecs 5 (((TimeTracker.new 0).down 0).up 0)
        = 10 := by decide
    have h2 : ((((TimeTracker.new 0).down 0).up 0)).start = 0 := rfl
    simp only [TimeTracker.uptime_percentage, h1, h2]
    norm_num
  · simp [TimeTracker.uptime_percentage, TimeTracker.new]

/-- C5 (amended): `uptime_percentage` divides total up seconds by the
seconds since `process_start`; when the transitions happen at strictly
increasing wall-clock seconds and the observation is no earlier than the
last transition and strictly after construction, the result is a finite
value in [0, 1].  At `now == process_start` the division is 0/0, which is
not a finite value (in particular not 0). -/
theorem uptime_percentage_in_unit_interval (tr : TimeTracker) (tl now : Nat)
    (h : ReachedAt tr tl) (h1 : tl ≤ now) (h2 : tr.start < now) :
    (∃ q : ℚ, TimeTracker.uptime_percentage now tr = some q
      ∧ 0 ≤ q ∧ q ≤ 1)
    ∧ TimeTracker.uptime_percentage tr.start tr = none := by
  obtain ⟨hstart, _, hsum⟩ := reachedAt_sinv tr tl h
  have hs := hsum now h1
  have hle : TimeTracker.totalUpSecs now tr ≤ now - tr.start := by omega
  have hne : ¬(now - tr.start = 0) := by omega
  constructor
  · refine ⟨(TimeTracker.totalUpSecs now tr : ℚ) / ((now - tr.start : Nat) : ℚ),
      ?_, ?_, ?_⟩
    · simp only [TimeTracker.uptime_percentage]
      rw [if_neg hne]
    · have hn : (0 : ℚ) ≤ (TimeTracker.totalUpSecs now tr : ℚ) :=
        Nat.cast_nonneg _
      have hdpos : (0 : ℚ) ≤ ((now - tr.start : Nat) : ℚ) := Nat.cast_nonneg _
      exact div_nonneg hn hdpos
    · have hdpos : (0 : ℚ) < ((now - tr.start : Nat) : ℚ) := by
        exact_mod_cast Nat.pos_of_ne_zero hne
      rw [div_le_one hdpos]
      exact_mod_cast hle
  · simp only [TimeTracker.uptime_percentage]
    rw [if_pos (by omega)]

/-- Witness for C5 at a fresh tracker observed five seconds later. -/
theorem uptime_percentage_in_unit_interval_witness :
    ∃ q : ℚ, TimeTracker.uptime_percentage 5 (TimeTracker.new 0) = some q
      ∧ 0 ≤ q ∧ q ≤ 1 :=
  (uptime_percentage_in_unit_interval (TimeTracker.new 0) 0 5
    (ReachedAt.base 0) (by omega) (by decide)).1
